import Mathlib

/-!
Verification development for the Unreal Engine code-analyzer core
(src/src/analyzer.ts of GenRobo/unreal-analyzer-mcp).

The analyzer is embedded shallowly: file contents are lists of lines
(each line a list of characters), the file system and the external
`glob` library are a record of enumeration/read functions, and each
regex of the source is hand-translated into an equivalent matching
function over character lists (the translation follows the exact
backtracking behaviour of the JavaScript pattern, documented at each
definition).  Stateful methods of the `UnrealCodeAnalyzer` class become
functions from an explicit `AnalyzerState`; methods that `throw` return
`Except`.  Method/property extraction (`ClassInfo.methods` /
`ClassInfo.properties`, analyzer.ts lines 223-260) and the operations
`detectPatterns` / `queryApiReference` / `generateApiContext` are not
modelled: no claim under verification mentions them.
-/

/-! ## Character-class helpers (JavaScript regex character classes) -/
/-- JavaScript regex `\s` (restricted to the ASCII whitespace actually
occurring in C++ source files). -/
def isWS (c : Char) : Bool :=
  c = ' ' || c = '\t' || c = '\n' || c = '\r' || c = '\x0b' || c = '\x0c'

/-- JavaScript regex `\w`, exactly `[A-Za-z0-9_]`. -/
def isWordChar (c : Char) : Bool :=
  ( 'a' ≤ c && c ≤ 'z') || ( 'A' ≤ c && c ≤ 'Z') || ( '0' ≤ c && c ≤ '9') || c = '_'

/-- Case folding used by the `i` regex flag and `toLowerCase()` (ASCII). -/
def lc (c : Char) : Char := c.toLower

/-- Lower-case a character list. -/
def lcL (s : List Char) : List Char := s.map lc

/-- Shorthand: the character list of a string literal. -/
def chars (s : String) : List Char := s.data

/-- Case-insensitive literal match at the head of `s`; returns the
remaining suffix on success. -/
def ciLit : List Char → List Char → Option (List Char)
  | [], s => some s
  | _ :: _, [] => none
  | p :: ps, c :: cs => if lc c = lc p then ciLit ps cs else none

/-- Case-sensitive literal match at the head of `s`. -/
def csLit : List Char → List Char → Option (List Char)
  | [], s => some s
  | _ :: _, [] => none
  | p :: ps, c :: cs => if c = p then csLit ps cs else none

/-- `String.prototype.trim()` on a character list. -/
def trimL (s : List Char) : List Char :=
  ((s.dropWhile isWS).reverse.dropWhile isWS).reverse

/-- Split a character list at every occurrence of `sep`
(JavaScript `String.prototype.split(sep)` for a single-character
separator: n separators yield n+1 pieces). -/
def splitOnChar (sep : Char) : List Char → List (List Char)
  | [] => [[]]
  | c :: cs =>
    let r := splitOnChar sep cs
    if c = sep then [] :: r
    else
      match r with
      | [] => [[ c ]]
      | p :: ps => (c :: p) :: ps

/-- Substring containment (JavaScript `String.prototype.includes`). -/
def containsSub (needle : List Char) : List Char → Bool
  | [] => (csLit needle []).isSome
  | c :: cs => (csLit needle (c :: cs)).isSome || containsSub needle cs

/-- First index of a plain substring occurrence
(JavaScript `String.prototype.indexOf`; `none` plays the role of -1). -/
def firstIndexOfSub (needle : List Char) : List Char → Option Nat
  | [] => if (csLit needle []).isSome then some 0 else none
  | c :: cs =>
    if (csLit needle (c :: cs)).isSome then some 0
    else (firstIndexOfSub needle cs).map (· + 1)

/-- Join a list of lines with a separator character
(JavaScript `Array.prototype.join('\n')` and `join(' ')`). -/
def joinWith (sep : Char) : List (List Char) → List Char
  | [] => []
  | [l] => l
  | l :: l' :: ls => l ++ sep :: joinWith sep (l' :: ls)

/-! ## Class extraction (`extractClassInfoWithRegex`, analyzer.ts 168-275)

The class-definition line pattern (analyzer.ts 177-180) is

  `^\s*(?:UCLASS\s*\([^)]*\)\s*)?class\s+(?:\w+_API\s+)?NAME\s*(?:final)?\s*(?::\s*(.+))?`

with the `i` flag; the functions below reproduce its anchored
backtracking behaviour on a single line. -/
/-- The optional group `(?:UCLASS\s*\([^)]*\)\s*)?`.  If the group
cannot be completed the regex falls back to not consuming it, which can
never lead to an overall match when the line starts with `uclass`
(case-insensitively) since `class` cannot match there; so a structural
failure simply leaves the position unchanged. -/
def skipUCLASS (s : List Char) : List Char :=
  match ciLit (chars "UCLASS") s with
  | none => s
  | some s1 =>
    match (s1.dropWhile isWS) with
    | '(' :: s2 =>
      let body := s2.dropWhile (fun c => ¬ c = ')')
      match body with
      | ')' :: s3 => (s3.dropWhile isWS)
      | _ => s
    | _ => s

/-- `(?::\s*(.+))?` — the inheritance capture group after the class
name.  `(.+)` is greedy and needs at least one character, so when the
rest of the line after `:` is all whitespace the backtracking `\s*`
gives the final whitespace character back to `(.+)`. -/
def captureInh (r : List Char) : List Char :=
  if r.isEmpty then []
  else
    let t := r.dropWhile isWS
    if t.isEmpty then r.drop (r.length - 1) else t

/-- Tail of the class-definition pattern after the class name has been
consumed: `\s*(?:final)?\s*(?::\s*(.+))?`.  Always succeeds; returns
the captured inheritance text (`match[1] || ''` at analyzer.ts 189). -/
def classDefTail (s : List Char) : List Char :=
  let s1 := s.dropWhile isWS
  let s2 := match ciLit (chars "final") s1 with
            | some x => x
            | none => s1
  match s2.dropWhile isWS with
  | ':' :: r => captureInh r
  | _ => []

/-- `(?:\w+_API\s+)?NAME` — the optional export-macro token followed by
the class name: the maximal `\w+` run must end in `_API` (case
insensitively, total length at least 5) and be followed by whitespace;
if the group or the name after it fails, backtrack to matching the name
directly. -/
def matchApiThenName (name : List Char) (s : List Char) : Option (List Char) :=
  let w := s.takeWhile isWordChar
  let rest := s.dropWhile isWordChar
  let viaApi : Option (List Char) :=
    if 5 ≤ w.length && lcL (w.drop (w.length - 4)) = chars "_api" then
      match rest with
      | c :: _ =>
        if isWS c then ciLit name (rest.dropWhile isWS) else none
      | [] => none
    else none
  match viaApi with
  | some s' => some s'
  | none => ciLit name s

/-- Anchored match of the whole class-definition line pattern
(analyzer.ts 177-180) against one line; returns the inheritance capture
(`''` when the group did not participate), or `none` when the line does
not match. -/
def matchClassDefLine (name : List Char) (line : List Char) : Option (List Char) :=
  let s0 := line.dropWhile isWS
  let s1 := skipUCLASS s0
  match ciLit (chars "class") s1 with
  | none => none
  | some s2 =>
    match s2 with
    | c :: _ =>
      if isWS c then
        match matchApiThenName name (s2.dropWhile isWS) with
        | none => none
        | some s5 => some (classDefTail s5)
      else none
    | [] => none

/-- The scan at analyzer.ts 185-192: first line matching the pattern,
returning its 0-based index and the inheritance capture. -/
def findFirstClassLine (name : List Char) : Nat → List (List Char) → Option (Nat × List Char)
  | _, [] => none
  | i, l :: ls =>
    match matchClassDefLine name l with
    | some inh => some (i, inh)
    | none => findFirstClassLine name (i + 1) ls

/-- `inheritancePart.replace(/\s*\{.*$/, '').trim()` (analyzer.ts 203):
everything from the first `{` on is removed together with the
whitespace run before it, then the result is trimmed. -/
def cleanInheritance (s : List Char) : List Char :=
  trimL (s.takeWhile (fun c => ¬ c = '{'))

/-- `baseClass.match(/(?:public|private|protected)\s+(\w+)/)`
(analyzer.ts 210): unanchored, case-SENSITIVE scan for an access
specifier followed by whitespace and a word; captures the word. -/
def extractBaseName : List Char → Option (List Char)
  | [] => none
  | c :: cs =>
    let here : Option (List Char) :=
      match (csLit (chars "public") (c :: cs)).orElse
              (fun _ => (csLit (chars "private") (c :: cs)).orElse
                (fun _ => csLit (chars "protected") (c :: cs))) with
      | none => none
      | some rest =>
        match rest with
        | d :: _ =>
          if isWS d then
            let afterWS := rest.dropWhile isWS
            let w := afterWS.takeWhile isWordChar
            if w.isEmpty then none else some w
          else none
        | [] => none
    match here with
    | some w => some w
    | none => extractBaseName cs

/-- The interface heuristic (analyzer.ts 214): a base name is an
interface iff it starts with `I`, is not exactly `IInterface`, and does
not start with `Int`.  (Both `startsWith` tests and the equality are
case-sensitive in the source.) -/
def isInterfaceBase (b : List Char) : Bool :=
  (csLit (chars "I") b).isSome
    && ¬ (b = chars "IInterface")
    && ¬ (csLit (chars "Int") b).isSome

/-- The classification loop at analyzer.ts 208-220 over the already
comma-split, trimmed base-class entries: first component the
superclasses, second the interfaces, in source order. -/
def classifyBases : List (List Char) → (List (List Char) × List (List Char))
  | [] => ([], [])
  | e :: es =>
    let r := classifyBases es
    match extractBaseName e with
    | none => r
    | some b => if isInterfaceBase b then (r.1, b :: r.2) else (b :: r.1, r.2)

/-- `inheritancePart.split(',').map(s => s.trim())` (analyzer.ts 207). -/
def splitCommaTrim (s : List Char) : List (List Char) :=
  (splitOnChar ',' s).map trimL

/-- Inheritance parsing of analyzer.ts 198-221 on the raw capture:
clean, test non-emptiness, split, classify. -/
def splitBases (raw : List Char) : (List (List Char) × List (List Char)) :=
  let cleaned := cleanInheritance raw
  if cleaned.isEmpty then ([], [])
  else classifyBases (splitCommaTrim cleaned)

/-- The structural record (`ClassInfo`, analyzer.ts 13-22).  The
`methods`, `properties` and `comments` fields are not modelled (no
claim concerns them; `comments` is always `[]` in the source). -/
structure ClassInfo where
  name : String
  file : String
  line : Nat
  superclasses : List String
  interfaces : List String
deriving DecidableEq

/-- Core of `extractClassInfoWithRegex` on already-read file lines. -/
def extractFromLines (filePath : String) (className : String)
    (lines : List (List Char)) : Option ClassInfo :=
  match findFirstClassLine (chars className) 0 lines with
  | none => none
  | some (i, rawInh) =>
    let p := splitBases rawInh
    some ⟨className, filePath, i + 1, p.1.map String.mk, p.2.map String.mk⟩

/-! ## File system, analyzer state, and class resolution
(`UnrealCodeAnalyzer`, analyzer.ts 123-343) -/
/-- The file system together with the external `glob` library, as seen
by the analyzer.  Each enumeration field models one concrete `glob`
call site with its pattern and ignore options; `readFile` models
`fs.readFileSync(..., 'utf8')` followed by `split('\n')`, with `none`
for a read error (the source catches and skips those). -/
structure FS where
  /-- `fs.existsSync` on a directory path. -/
  existsDir : String → Bool
  /-- `glob('**/*.h', ignore generated headers and Intermediate)` under
  a root (analyzer.ts 319-323). -/
  globH : String → List String
  /-- `glob('**/*.{h,cpp}', ignore Intermediate)` under a root
  (analyzer.ts 388-392). -/
  globHCpp : String → List String
  /-- `glob('**/' + filePattern, ignore Intermediate)` under a root
  (analyzer.ts 473-477); first argument the root, second the pattern. -/
  globPat : String → String → List String
  /-- `glob('**/*.{h,cpp}')` with no ignore list (analyzer.ts 824-827). -/
  globAll : String → List String
  /-- File contents as a list of lines, or `none` on a read error. -/
  readFile : String → Option (List (List Char))

/-- `path.join` (POSIX). -/
def pathJoin (a b : String) : String := a ++ "/" ++ b

/-- The error taxonomy of the thrown string messages. -/
inductive AnalyzerError where
  | notInitialized
  | invalidEnginePath
  | invalidCustomPath
  | noSearchPath
  | classNotFound
  | unrealPathNotConfigured
  | unknownSubsystem
  | subsystemDirNotFound
deriving DecidableEq

/-- Derived API-reference record (`ApiReference`, analyzer.ts 86-105),
restricted to the fields `getOrCreateApiReference` populates.  The
source field named after the declaration text is called `declText`
here. -/
structure ApiReference where
  className : String
  description : String
  declText : String
  examples : List String
  remarks : List String
  relatedClasses : List String
  category : String
  module : String
  version : String
deriving DecidableEq

/-- Mutable fields of `UnrealCodeAnalyzer` (analyzer.ts 124-129);
the two caches are association lists with most-recent-first lookup
(matching `Map.get`/`Map.set` observably). -/
structure AnalyzerState where
  unrealPath : Option String
  customPath : Option String
  classCache : List (String × ClassInfo)
  apiCache : List (String × ApiReference)
  initialized : Bool
deriving DecidableEq

/-- Declared but never enforced cache bound (analyzer.ts 129). -/
def MAX_CACHE_SIZE : Nat := 50000

/-- `Map.get` over the association-list cache model. -/
def cacheLookup {α : Type} : List (String × α) → String → Option α
  | [], _ => none
  | (k, v) :: rest, n => if k = n then some v else cacheLookup rest n

/-- The engine-path configuration method (analyzer.ts 137-153). -/
def initializeEnginePath (st : AnalyzerState) (fs : FS) (enginePath : String) :
    Except AnalyzerError AnalyzerState :=
  if fs.existsDir enginePath = false then .error .invalidEnginePath
  else
    let hasEngineDir := fs.existsDir (pathJoin enginePath "Engine")
    let hasSourceDir := fs.existsDir (pathJoin enginePath "Source")
    if hasEngineDir = false && hasSourceDir = false then .error .invalidEnginePath
    else .ok ⟨some enginePath, st.customPath, st.classCache, st.apiCache, true⟩

/-- `initializeCustomCodebase(customPath)` (analyzer.ts 155-163). -/
def initializeCustomCodebase (st : AnalyzerState) (fs : FS) (customPath : String) :
    Except AnalyzerError AnalyzerState :=
  if fs.existsDir customPath = false then .error .invalidCustomPath
  else .ok ⟨st.unrealPath, some customPath, st.classCache, st.apiCache, true⟩

/-- The prioritized root list built at analyzer.ts 288-305 (custom root
first, unchecked; then the five engine candidate directories filtered
by existence).  The second component counts the `existsSync` probes
performed, so that cache hits can be shown to touch the file system
not at all. -/
def searchPathsOf (fs : FS) (st : AnalyzerState) : List String × Nat :=
  let base := match st.customPath with
              | some c => [c]
              | none => []
  match st.unrealPath with
  | none => (base, 0)
  | some u =>
    let ueDirs := [pathJoin u "Engine/Source/Runtime",
                   pathJoin u "Engine/Source/Editor",
                   pathJoin u "Source/Runtime",
                   pathJoin u "Source",
                   u]
    (base ++ ueDirs.filter fs.existsDir, ueDirs.length)

/-- `extractClassInfoWithRegex` (analyzer.ts 168-275): reads the file
itself (`readFileSync` at 170, the `catch` at 272 yielding `null`). -/
def extractClassInfoWithRegex (fs : FS) (filePath : String) (className : String) :
    Option ClassInfo :=
  match fs.readFile filePath with
  | none => none
  | some lines => extractFromLines filePath className lines

/-- `:` or `{` — the tail alternative of the cheap existence pattern. -/
def colonOrBrace : List Char → Bool
  | ':' :: _ => true
  | '{' :: _ => true
  | _ => false

/-- Tail `\s*(?:final)?\s*(?::|{)` of the cheap existence pattern,
with the backtracking alternative of not consuming `final`. -/
def classDefTestTail (s : List Char) : Bool :=
  let s1 := s.dropWhile isWS
  (match ciLit (chars "final") s1 with
   | some s2 => colonOrBrace (s2.dropWhile isWS)
   | none => false)
  || colonOrBrace s1

/-- One anchored attempt of the cheap existence pattern
`\bclass\s+(?:\w+_API\s+)?NAME\s*(?:final)?\s*(?::|{)` (analyzer.ts
312-315, flag `i`), at a position whose preceding character is known to
satisfy the `\b` test.  When the `\w+_API\s+` group matches together
with the name, the regex commits to it: a tail failure after that can
never be rescued by the group-less alternative (the name would have to
be a proper prefix of the maximal word run, leaving word characters
where `:`/`{`/`final` is required). -/
def classDefTestAt (name : List Char) (s : List Char) : Bool :=
  match ciLit (chars "class") s with
  | none => false
  | some s2 =>
    match s2 with
    | c :: _ =>
      if isWS c then
        match matchApiThenName name (s2.dropWhile isWS) with
        | none => false
        | some s5 => classDefTestTail s5
      else false
    | [] => false

/-- Unanchored scan of the cheap existence pattern over whole file
content, tracking the previous character for the `\b` assertion. -/
def classDefTestFrom (name : List Char) : Option Char → List Char → Bool
  | _, [] => false
  | prev, c :: cs =>
    ((match prev with
      | none => true
      | some p => ¬ isWordChar p)
     && classDefTestAt name (c :: cs))
    || classDefTestFrom name (some c) cs

/-- `classDefPattern.test(content)` at analyzer.ts 329. -/
def classDefTest (name : List Char) (content : List Char) : Bool :=
  classDefTestFrom name none content

/-- The inner file loop of `analyzeClass` (analyzer.ts 326-339) over
one root's header files.  Returns the first successful extraction and
the number of file-system reads performed (the cheap-test read at 328,
plus the re-read inside `extractClassInfoWithRegex` when the cheap
test passes). -/
def scanFiles (fs : FS) (name : String) : List String → Option ClassInfo × Nat
  | [] => (none, 0)
  | f :: rest =>
    match fs.readFile f with
    | none =>
      let r := scanFiles fs name rest
      (r.1, r.2 + 1)
    | some lines =>
      if classDefTest (chars name) (joinWith '\n' lines) then
        match extractClassInfoWithRegex fs f name with
        | some info => (some info, 2)
        | none =>
          let r := scanFiles fs name rest
          (r.1, r.2 + 2)
      else
        let r := scanFiles fs name rest
        (r.1, r.2 + 1)

/-- The outer root loop of `analyzeClass` (analyzer.ts 318-340); each
root costs one `glob` enumeration. -/
def scanPaths (fs : FS) (name : String) : List String → Option ClassInfo × Nat
  | [] => (none, 0)
  | p :: ps =>
    let r := scanFiles fs name (fs.globH p)
    match r.1 with
    | some info => (some info, r.2 + 1)
    | none =>
      let r2 := scanPaths fs name ps
      (r2.1, r.2 + 1 + r2.2)

/-- `analyzeClass` (analyzer.ts 277-343).  On success it returns the
record, the successor state, and the number of file-system operations
(existence probes, `glob` enumerations and file reads) performed. -/
def analyzeClass (st : AnalyzerState) (fs : FS) (className : String) :
    Except AnalyzerError (ClassInfo × AnalyzerState × Nat) :=
  if st.initialized = false then .error .notInitialized
  else
    match cacheLookup st.classCache className with
    | some info => .ok (info, st, 0)
    | none =>
      let pr := searchPathsOf fs st
      if pr.1.isEmpty then .error .noSearchPath
      else
        match scanPaths fs className pr.1 with
        | (some info, ops) =>
          .ok (info,
               ⟨st.unrealPath, st.customPath, (className, info) :: st.classCache,
                st.apiCache, st.initialized⟩,
               pr.2 + ops)
        | (none, _) => .error .classNotFound

/-! ## Claims C1 and C2: extraction and the interface heuristic -/
/-- A file system holding one header whose text contains the C1 line. -/
def fsC1 : FS :=
  ⟨fun _ => false, fun _ => [], fun _ => [], fun _ _ => [], fun _ => [],
   fun p =>
     if p = "Engine/AFoo.h" then
       some [chars "#pragma once",
             chars "",
             chars "class ENGINE_API AFoo final : public AActor, public IInterfaceX",
             chars "\x7b",
             chars "\x7d;"]
     else none⟩

/-- Concrete scenario for the C5 witness: one custom root holding one
header that defines `AFoo`. -/
def fsC5 : FS :=
  ⟨fun _ => false,
   fun r => if r = "C" then [ "C/AFoo.h"] else [],
   fun _ => [], fun _ _ => [], fun _ => [],
   fun p => if p = "C/AFoo.h" then some [chars "class AFoo : public AActor"] else none⟩

/-- The record the C5 scenario resolves to. -/
def infoC5 : ClassInfo := ⟨ "AFoo", "C/AFoo.h", 1, [ "AActor"], []⟩

/-- Analyzer state before the first C5 resolution. -/
def stC5 : AnalyzerState := ⟨none, some "C", [], [], true⟩

/-- Analyzer state after the first C5 resolution. -/
def stC5' : AnalyzerState := ⟨none, some "C", [( "AFoo", infoC5)], [], true⟩

/-! ## Hierarchy resolution (`findClassHierarchy`, analyzer.ts 345-373)

The source recursion has no cycle guard, so the embedding carries a
fuel parameter; running out of fuel is the distinguished outcome
`noFuel`, modelling divergence.  It is distinct from an error: the
`catch` at analyzer.ts 362 corresponds exactly to the `err` case. -/
/-- `ClassHierarchy` (analyzer.ts 56-60). -/
structure ClassHierarchy where
  className : String
  superclasses : List ClassHierarchy
  interfaces : List String

/-- Outcome of a fueled hierarchy construction. -/
inductive HRes where
  | ok : ClassHierarchy → AnalyzerState → HRes
  | err : AnalyzerError → AnalyzerState → HRes
  | noFuel : HRes

/-- The superclass loop at analyzer.ts 358-370: each superclass is
expanded through `step`; a failing expansion is caught and replaced by
a leaf node with no children and no interfaces (analyzer.ts 364-368). -/
def goSupers (step : AnalyzerState → String → HRes) :
    AnalyzerState → List String → Option (List ClassHierarchy × AnalyzerState)
  | st, [] => some ([], st)
  | st, s :: rest =>
    match step st s with
    | .ok h st' => (goSupers step st' rest).map (fun p => (h :: p.1, p.2))
    | .err _ st' => (goSupers step st' rest).map (fun p => (⟨s, [], []⟩ :: p.1, p.2))
    | .noFuel => none

/-- `findClassHierarchy` (analyzer.ts 345-373).  The top-level
`analyzeClass` failure propagates (`err`); interfaces are included per
the flag; superclasses are expanded recursively with one unit of fuel
consumed per recursion level. -/
def findClassHierarchy (fs : FS) : Nat → AnalyzerState → String → Bool → HRes
  | fuel, st, className, includeInterfaces =>
    match analyzeClass st fs className with
    | .error e => .err e st
    | .ok (info, st1, _) =>
      match fuel with
      | 0 => .noFuel
      | f + 1 =>
        match goSupers (fun st' s => findClassHierarchy fs f st' s includeInterfaces)
                st1 info.superclasses with
        | some (subs, st2) =>
          .ok ⟨info.name, subs, if includeInterfaces then info.interfaces else []⟩ st2
        | none => .noFuel

/-- A name is unresolvable in a state when `analyzeClass` fails with
`ClassNotFound` there. -/
def Unres (fs : FS) (q : String) (st : AnalyzerState) : Prop :=
  analyzeClass st fs q = .error .classNotFound

/-! ## Reference and free-text search
(`findReferences` analyzer.ts 375-425, `searchCode` analyzer.ts 427-520) -/
/-- Word-character test extended to an optional character
(out-of-bounds counts as non-word for `\b`). -/
def isWordOpt : Option Char → Bool
  | none => false
  | some c => isWordChar c

/-- The JavaScript `\b` assertion between two (optional) characters:
exactly one side is a word character. -/
def bdry (l r : Option Char) : Bool := isWordOpt l != isWordOpt r

/-- One anchored attempt of `\bIDENT\b` at the head of `s`, given the
preceding character. -/
def wordMatchAt (ident : List Char) (prev : Option Char) (s : List Char) : Bool :=
  match csLit ident s with
  | none => false
  | some rest =>
    let lastC : Option Char :=
      match ident.getLast? with
      | some c => some c
      | none => prev
    bdry prev s.head? && bdry lastC rest.head?

/-- Unanchored scan of `\bIDENT\b` (case-sensitive, as at
analyzer.ts 395). -/
def wordMatchFrom (ident : List Char) : Option Char → List Char → Bool
  | prev, [] => wordMatchAt ident prev []
  | prev, c :: cs => wordMatchAt ident prev (c :: cs) || wordMatchFrom ident (some c) cs

/-- `identifierPattern.test(line)` for the per-line whole-word test
(the `lastIndex` of the `g`-flagged regex is reset on every path, so
the test is pure per line). -/
def testWordMatch (ident line : List Char) : Bool := wordMatchFrom ident none line

/-- `CodeReference` (analyzer.ts 49-54): 1-based line and column plus
the joined 5-line context window. -/
structure CodeReference where
  file : String
  line : Nat
  column : Nat
  context : String
deriving DecidableEq

/-- `lines.slice(Math.max(0, i - 2), i + 3).join('\n')`
(analyzer.ts 407-409 and 502-504). -/
def contextOf (lines : List (List Char)) (i : Nat) : String :=
  String.mk (joinWith '\n' ((lines.drop (i - 2)).take (i + 3 - (i - 2))))

/-- The per-line loop of `findReferences` (analyzer.ts 402-417) with a
running 0-based index; column is `line.indexOf(identifier) + 1`. -/
def collectRefsFrom (ident : List Char) (path : String) (allLines : List (List Char)) :
    Nat → List (List Char) → List CodeReference
  | _, [] => []
  | i, l :: rest =>
    (if testWordMatch ident l then
      [⟨path, i + 1,
        (match firstIndexOfSub ident l with
         | some j => j + 1
         | none => 0),
        contextOf allLines i⟩]
     else [])
    ++ collectRefsFrom ident path allLines (i + 1) rest

/-- All whole-word references inside one file's lines. -/
def collectFileRefs (ident : List Char) (path : String) (lines : List (List Char)) :
    List CodeReference :=
  collectRefsFrom ident path lines 0 lines

/-- The file loop of `findReferences` (analyzer.ts 397-422); unreadable
files are skipped. -/
def refsOverFiles (fs : FS) (ident : List Char) : List String → List CodeReference
  | [] => []
  | f :: rest =>
    (match fs.readFile f with
     | none => []
     | some lines => collectFileRefs ident f lines)
    ++ refsOverFiles fs ident rest

/-- The symbol-kind hint of `findReferences` (analyzer.ts 377). -/
inductive SymbolKind where
  | kClass
  | kFunction
  | kVariable
deriving DecidableEq

/-- `this.customPath || this.unrealPath` (analyzer.ts 383). -/
def activeRoot (st : AnalyzerState) : Option String :=
  match st.customPath with
  | some c => some c
  | none => st.unrealPath

/-- `findReferences` (analyzer.ts 375-425).  Only the single root
`customPath || unrealPath` is enumerated; the `type` hint is accepted
and never read; results are capped by `slice(0, 100)`. -/
def findReferences (st : AnalyzerState) (fs : FS) (identifier : String)
    (type : Option SymbolKind) : Except AnalyzerError (List CodeReference) :=
  if st.initialized = false then .error .notInitialized
  else
    match activeRoot st with
    | none => .error .noSearchPath
    | some root =>
      .ok ((refsOverFiles fs (chars identifier) (fs.globHCpp root)).take 100)

/-- `line.trim().startsWith('//') || line.trim().startsWith('/*')`
(analyzer.ts 495). -/
def isCommentStart (l : List Char) : Bool :=
  (csLit (chars "//") (trimL l)).isSome || (csLit (chars "/*") (trimL l)).isSome

/-- The per-line loop of `searchCode` (analyzer.ts 491-513).  The
compiled query regex (`new RegExp(query, 'gi')`, analyzer.ts 484) is an
external collaborator, abstracted as `matcher`, which returns
`line.search(regex)` — the first match index — or `none` when
`regex.test(line)` is false.  A line whose trimmed text opens a
comment is skipped entirely when the inclusion flag is false. -/
def collectSearchFrom (matcher : List Char → Option Nat) (includeComments : Bool)
    (path : String) (allLines : List (List Char)) :
    Nat → List (List Char) → List CodeReference
  | _, [] => []
  | i, l :: rest =>
    (if includeComments = false && isCommentStart l then []
     else if (matcher l).isSome then
       [⟨path, i + 1,
         (match matcher l with
          | some j => j + 1
          | none => 0),
         contextOf allLines i⟩]
     else [])
    ++ collectSearchFrom matcher includeComments path allLines (i + 1) rest

/-- All query matches inside one file's lines. -/
def collectSearchMatches (matcher : List Char → Option Nat) (includeComments : Bool)
    (path : String) (lines : List (List Char)) : List CodeReference :=
  collectSearchFrom matcher includeComments path lines 0 lines

/-- The file loop of `searchCode` (analyzer.ts 486-517). -/
def searchOverFiles (fs : FS) (matcher : List Char → Option Nat)
    (includeComments : Bool) : List String → List CodeReference
  | [] => []
  | f :: rest =>
    (match fs.readFile f with
     | none => []
     | some lines => collectSearchMatches matcher includeComments f lines)
    ++ searchOverFiles fs matcher includeComments rest

/-- `[...new Set(allFiles)]` (analyzer.ts 482): de-duplication keeping
first occurrences. -/
def dedupFrom (seen : List String) : List String → List String
  | [] => []
  | x :: xs => if x ∈ seen then dedupFrom seen xs else x :: dedupFrom (x :: seen) xs

/-- De-duplicate a path list by (absolute) path. -/
def dedup (l : List String) : List String := dedupFrom [] l

/-- The root list of `searchCode` (analyzer.ts 442-468): custom root,
engine root, and — for shader-looking file patterns — the existing
dedicated shader directories. -/
def searchCodePaths (st : AnalyzerState) (fs : FS) (filePattern : String) : List String :=
  let isShaderSearch :=
    containsSub (chars "usf") (chars filePattern)
    || containsSub (chars "ush") (chars filePattern)
  (match st.customPath with
   | some c => [c]
   | none => [])
  ++ (match st.unrealPath with
      | none => []
      | some u =>
        [u] ++ (if isShaderSearch then
                  [pathJoin u "Engine/Shaders", pathJoin u "Shaders"].filter fs.existsDir
                else []))

/-- Union of the per-root `glob` enumerations (analyzer.ts 471-479). -/
def filesOverPaths (fs : FS) (filePattern : String) : List String → List String
  | [] => []
  | p :: ps => fs.globPat p filePattern ++ filesOverPaths fs filePattern ps

/-- The uncapped match list of `searchCode`. -/
def searchCodeRaw (st : AnalyzerState) (fs : FS) (matcher : List Char → Option Nat)
    (filePattern : String) (includeComments : Bool) : List CodeReference :=
  searchOverFiles fs matcher includeComments
    (dedup (filesOverPaths fs filePattern (searchCodePaths st fs filePattern)))

/-- `searchCode` (analyzer.ts 427-520): union of all configured roots,
de-duplicated, capped at 100. -/
def searchCode (st : AnalyzerState) (fs : FS) (matcher : List Char → Option Nat)
    (filePattern : String) (includeComments : Bool) :
    Except AnalyzerError (List CodeReference) :=
  if st.initialized = false then .error .notInitialized
  else if st.customPath = none && st.unrealPath = none then .error .noSearchPath
  else .ok ((searchCodeRaw st fs matcher filePattern includeComments).take 100)

/-! ## Claim C3: which roots does `findReferences` scan? -/
/-- A file system with an empty custom root `C` and an engine root `E`
holding one file with a whole-word occurrence of `AFoo`. -/
def fsC3 : FS :=
  ⟨fun _ => false, fun _ => [],
   fun r => if r = "E" then [ "E/a.h"] else [],
   fun _ _ => [], fun _ => [],
   fun p => if p = "E/a.h" then some [chars "AFoo x;"] else none⟩

/-- Analyzer state with both roots configured. -/
def stC3 : AnalyzerState := ⟨some "E", some "C", [], [], true⟩

/-- A file system whose single root holds one file with 250 matching
lines, for both searches. -/
def fsC7 : FS :=
  ⟨fun _ => false, fun _ => [],
   fun r => if r = "C" then [ "C/a.cpp"] else [],
   fun r _ => if r = "C" then [ "C/a.cpp"] else [],
   fun _ => [],
   fun p => if p = "C/a.cpp" then some (List.replicate 250 (chars "AFoo x")) else none⟩

/-- Analyzer state for the C7 scenario. -/
def stC7 : AnalyzerState := ⟨none, some "C", [], [], true⟩

/-- A concrete matcher (plain substring search for `AFoo`), standing
for the compiled query regex. -/
def matcherC7 (l : List Char) : Option Nat := firstIndexOfSub (chars "AFoo") l

/-- The two lines of the C8 scenario: a comment line containing the
query term, then an identical term on a non-comment line. -/
def linesC8 : List (List Char) := [chars "// AFoo here", chars "AFoo here"]

/-- Substring matcher for the C8 scenario's query. -/
def matcherC8 (l : List Char) : Option Nat := firstIndexOfSub (chars "AFoo") l

/-- A file system holding the C8 file under the custom root. -/
def fsC8 : FS :=
  ⟨fun _ => false, fun _ => [],
   fun _ => [],
   fun r _ => if r = "C" then [ "C/a.cpp"] else [],
   fun _ => [],
   fun p => if p = "C/a.cpp" then some linesC8 else none⟩

/-- Analyzer state for the C8 scenario. -/
def stC8 : AnalyzerState := ⟨none, some "C", [], [], true⟩

/-- The single match `searchCode` produces in the C8 scenario with
comments excluded: line 2, not line 1. -/
def refC8 : CodeReference := ⟨ "C/a.cpp", 2, 1, "// AFoo here\nAFoo here"⟩

/-! ## Subsystem analysis (`analyzeSubsystem`, analyzer.ts 784-846) -/
/-- `SubsystemInfo` (analyzer.ts 62-68); `keyFeatures` and
`dependencies` are reserved and never populated. -/
structure SubsystemInfo where
  name : String
  mainClasses : List String
  keyFeatures : List String
  dependencies : List String
  sourceFiles : List String
deriving DecidableEq

/-- The fixed subsystem-to-directory table (analyzer.ts 802-811). -/
def subsystemDirs : List (String × String) :=
  [( "Rendering", "Engine/Source/Runtime/RenderCore"),
   ( "Physics", "Engine/Source/Runtime/PhysicsCore"),
   ( "Audio", "Engine/Source/Runtime/AudioCore"),
   ( "Networking", "Engine/Source/Runtime/Networking"),
   ( "Input", "Engine/Source/Runtime/InputCore"),
   ( "AI", "Engine/Source/Runtime/AIModule"),
   ( "Animation", "Engine/Source/Runtime/AnimationCore"),
   ( "UI", "Engine/Source/Runtime/UMG")]

/-- `f.endsWith(suffix)` (case-sensitive). -/
def endsWithStr (suffix s : List Char) : Bool :=
  (csLit suffix.reverse s.reverse).isSome

/-- One anchored attempt of the case-sensitive class-declaration
pattern `\bclass\s+(?:\w+_API\s+)?(\w+)\s*(?:final)?\s*:` (analyzer.ts
831) at the head of `s`; returns the capture and the suffix after the
whole match.  The greedy `(\w+)` capture takes the maximal word run (a
shorter run can never rescue a failing tail, since the given-back word
characters would sit where `final` or `:` is required); the `\w+_API`
group falls back to non-participation when the rest fails after it. -/
def matchClassDeclAt (s : List Char) : Option (List Char × List Char) :=
  match csLit (chars "class") s with
  | none => none
  | some s2 =>
    match s2 with
    | c :: _ =>
      if isWS c then
        let s3 := s2.dropWhile isWS
        let tryCapture : List Char → Option (List Char × List Char) := fun t =>
          let w := t.takeWhile isWordChar
          let rest := t.dropWhile isWordChar
          if w.isEmpty then none
          else
            let r1 := rest.dropWhile isWS
            let viaFinal : Option (List Char) :=
              match csLit (chars "final") r1 with
              | some r2 =>
                match r2.dropWhile isWS with
                | ':' :: r3 => some r3
                | _ => none
              | none => none
            match viaFinal with
            | some r3 => some (w, r3)
            | none =>
              match r1 with
              | ':' :: r3 => some (w, r3)
              | _ => none
        let w := s3.takeWhile isWordChar
        let rest := s3.dropWhile isWordChar
        let viaApi : Option (List Char × List Char) :=
          if 5 ≤ w.length && w.drop (w.length - 4) = chars "_API" then
            match rest with
            | c2 :: _ => if isWS c2 then tryCapture (rest.dropWhile isWS) else none
            | [] => none
          else none
        match viaApi with
        | some r => some r
        | none => tryCapture s3
      else none
    | [] => none

/-- The `exec` loop over whole file content (analyzer.ts 833-843):
global scan resuming after each full match (`lastIndex` lands just
past the matched `:`); the fuel argument (initially `length + 1`)
only bounds the scan, which consumes at least one character per
step. -/
def extractClassDeclsGo : Nat → Option Char → List Char → List (List Char)
  | 0, _, _ => []
  | _ + 1, _, [] => []
  | fuel + 1, prev, c :: cs =>
    let hereOK := match prev with
                  | none => true
                  | some p => ! isWordChar p
    match (if hereOK then matchClassDeclAt (c :: cs) else none) with
    | some (w, rest) => w :: extractClassDeclsGo fuel (some ':') rest
    | none => extractClassDeclsGo fuel (some c) cs

/-- All class-declaration captures in a file's content. -/
def extractClassDecls (content : List Char) : List (List Char) :=
  extractClassDeclsGo (content.length + 1) none content

/-- The header loop of `analyzeSubsystem` (analyzer.ts 833-843). -/
def subsystemClassesOver (fs : FS) : List String → List String
  | [] => []
  | f :: rest =>
    (match fs.readFile f with
     | none => []
     | some lines => (extractClassDecls (joinWith '\n' lines)).map String.mk)
    ++ subsystemClassesOver fs rest

/-- `analyzeSubsystem` (analyzer.ts 784-846).  Requires the
initialized flag AND the engine root specifically (analyzer.ts
789-791); a configured custom root alone never suffices. -/
def analyzeSubsystem (st : AnalyzerState) (fs : FS) (subsystem : String) :
    Except AnalyzerError SubsystemInfo :=
  if st.initialized = false then .error .notInitialized
  else
    match st.unrealPath with
    | none => .error .unrealPathNotConfigured
    | some u =>
      match cacheLookup subsystemDirs subsystem with
      | none => .error .unknownSubsystem
      | some dir =>
        let fullPath := pathJoin u dir
        if fs.existsDir fullPath = false then .error .subsystemDirNotFound
        else
          let srcFiles := fs.globAll fullPath
          let headerFiles := srcFiles.filter (fun f => endsWithStr (chars ".h") (chars f))
          .ok ⟨subsystem, subsystemClassesOver fs headerFiles, [], [], srcFiles⟩

/-- An empty file system for the C10 scenario. -/
def fsC10 : FS :=
  ⟨fun _ => false, fun _ => [], fun _ => [], fun _ _ => [], fun _ => [], fun _ => none⟩

/-! ## API synthesis and relevance scoring
(`getOrCreateApiReference` analyzer.ts 704-723,
`calculateApiRelevance` analyzer.ts 725-743) -/
/-- `Array.prototype.join(sep)` over strings. -/
def joinStrSep (sep : String) : List String → String
  | [] => ""
  | [s] => s
  | s :: s' :: rest => s ++ sep ++ joinStrSep sep (s' :: rest)

/-- `determineCategory` (analyzer.ts 767-773). -/
def determineCategory (classInfo : ClassInfo) : String :=
  if (csLit (chars "U") (chars classInfo.name)).isSome then "Object"
  else if (csLit (chars "A") (chars classInfo.name)).isSome then "Actor"
  else if (csLit (chars "F") (chars classInfo.name)).isSome then "Structure"
  else if classInfo.superclasses.any
      (fun s => containsSub (chars "Component") (chars s)) then "Component"
  else "Miscellaneous"

/-- Index of the first list element equal to the target. -/
def idxOfFrom : Nat → List (List Char) → List Char → Option Nat
  | _, [], _ => none
  | i, p :: ps, t => if p = t then some i else idxOfFrom (i + 1) ps t

/-- `determineModule` (analyzer.ts 775-782): the path segment after
the first `Runtime` segment, defaulting to `Core`. -/
def determineModule (filePath : String) : String :=
  let parts := splitOnChar '/' (chars filePath)
  match idxOfFrom 0 parts (chars "Runtime") with
  | none => "Core"
  | some i =>
    if i + 1 < parts.length then String.mk ((parts.get? (i + 1)).getD []) else "Core"

/-- The declaration-text generator (`generateClassSyntax` in the
source, analyzer.ts 759-765). -/
def generateClassDeclText (classInfo : ClassInfo) : String :=
  let base := "class " ++ classInfo.name
  if classInfo.superclasses.isEmpty then base
  else base ++ " : public " ++ joinStrSep ", public " classInfo.superclasses

/-- `getOrCreateApiReference` (analyzer.ts 704-723): cached synthesis
of an `ApiReference` from a structural record. -/
def getOrCreateApiReference (apiCache : List (String × ApiReference))
    (classInfo : ClassInfo) : ApiReference × List (String × ApiReference) :=
  match cacheLookup apiCache classInfo.name with
  | some r => (r, apiCache)
  | none =>
    let apiRef : ApiReference :=
      ⟨classInfo.name, "Class " ++ classInfo.name,
       generateClassDeclText classInfo, [], [],
       classInfo.superclasses ++ classInfo.interfaces,
       determineCategory classInfo, determineModule classInfo.file, "5.0"⟩
    (apiRef, (classInfo.name, apiRef) :: apiCache)

/-- `calculateApiRelevance` (analyzer.ts 725-743): sequential
accumulation over the search terms of the four weighted substring
tests. -/
def calculateApiRelevance (apiRef : ApiReference) (searchTerms : List String) : Nat :=
  let text := lcL (chars (joinStrSep " "
    ([apiRef.className, apiRef.description, apiRef.category, apiRef.module]
      ++ apiRef.relatedClasses)))
  searchTerms.foldl
    (fun score term =>
      score
      + (if containsSub (chars term) (lcL (chars apiRef.className)) then 10 else 0)
      + (if containsSub (chars term) (lcL (chars apiRef.category)) then 5 else 0)
      + (if containsSub (chars term) (lcL (chars apiRef.module)) then 5 else 0)
      + (if containsSub (chars term) text then 2 else 0))
    0

/-- Per-term score as the claim words it: 10 for a class-name
substring match, 5 for category, 5 for module, 2 for the concatenated
text, cumulative across fields. -/
def claimTermScore (apiRef : ApiReference) (term : String) : Nat :=
  (if containsSub (chars term) (lcL (chars apiRef.className)) then 10 else 0)
  + (if containsSub (chars term) (lcL (chars apiRef.category)) then 5 else 0)
  + (if containsSub (chars term) (lcL (chars apiRef.module)) then 5 else 0)
  + (if containsSub (chars term)
       (lcL (chars (joinStrSep " "
         ([apiRef.className, apiRef.description, apiRef.category, apiRef.module]
           ++ apiRef.relatedClasses)))) then 2 else 0)

/-- Total score as the claim words it: the sum over terms. -/
def claimApiScore (apiRef : ApiReference) (terms : List String) : Nat :=
  (terms.map (claimTermScore apiRef)).sum

/-- The structural record of the C4 counterexample class `AOBox`
(resolvable shape: an Actor-prefixed class under a `Runtime/Core`
path). -/
def infoC4 : ClassInfo :=
  ⟨ "AOBox", "Engine/Source/Runtime/Core/Public/AOBox.h", 3, [], []⟩

/-! ## Theorems -/

/-- C1: for a header file whose text contains the line
`class ENGINE_API AFoo final : public AActor, public IInterfaceX`,
class extraction for the target name `AFoo` succeeds and yields
superclass list exactly `["AActor"]` and interface list exactly
`["IInterfaceX"]`. -/
theorem c1_extraction_correct :
    extractClassInfoWithRegex fsC1 "Engine/AFoo.h" "AFoo"
      = some ⟨ "AFoo", "Engine/AFoo.h", 3, [ "AActor"], [ "IInterfaceX"]⟩ := by
  decide

/-- The classification loop partitions the parsed base names by the
interface heuristic, preserving order. -/
theorem classifyBases_partition (es : List (List Char)) :
    classifyBases es
      = ((es.filterMap extractBaseName).filter (fun b => ! isInterfaceBase b),
         (es.filterMap extractBaseName).filter (fun b => isInterfaceBase b)) := by
  induction es with
  | nil => rfl
  | cons e es ih =>
    unfold classifyBases
    rw [ih]
    cases h : extractBaseName e with
    | none => simp [List.filterMap_cons, h]
    | some b =>
      by_cases hb : isInterfaceBase b
      · simp [List.filterMap_cons, h, hb]
      · simp [List.filterMap_cons, h, hb]

/-- C2: every base-class entry parsed from an inheritance clause is
classified as an interface iff it starts with `I`, is not exactly
`IInterface`, and does not start with `Int` (the predicate
`isInterfaceBase`, analyzer.ts 214), otherwise as a superclass; in
particular extraction of a class deriving from `IntBox` and
`IInterface` classifies both as superclasses. -/
theorem c2_base_classification :
    (∀ raw : List Char,
       splitBases raw
         = (((splitCommaTrim (cleanInheritance raw)).filterMap extractBaseName).filter
              (fun b => ! isInterfaceBase b),
            ((splitCommaTrim (cleanInheritance raw)).filterMap extractBaseName).filter
              (fun b => isInterfaceBase b)))
    ∧ extractFromLines "U.h" "UFoo"
        [chars "class UFoo : public IntBox, public IInterface"]
        = some ⟨ "UFoo", "U.h", 1, [ "IntBox", "IInterface"], []⟩ := by
  constructor
  · intro raw
    unfold splitBases
    cases h : cleanInheritance raw with
    | nil => simp [splitCommaTrim, splitOnChar, trimL, List.filterMap, extractBaseName]
    | cons c cs => simp [classifyBases_partition]
  · decide

/-! ## Claim C5: resolution is idempotent and answered from the cache -/
/-- C5: class resolution is idempotent and caching — if `analyzeClass`
succeeds, calling it again on the resulting state returns the
structurally identical record and the same state while performing zero
file-system operations (no existence probes, no `glob` enumeration, no
reads). -/
theorem c5_cache_idempotent (st : AnalyzerState) (fs : FS) (name : String)
    (info : ClassInfo) (st' : AnalyzerState) (n : Nat)
    (h : analyzeClass st fs name = .ok (info, st', n)) :
    analyzeClass st' fs name = .ok (info, st', 0) := by
  unfold analyzeClass at h
  by_cases hinit : st.initialized = false
  · simp [hinit] at h
  · simp only [if_neg hinit] at h
    cases hc : cacheLookup st.classCache name with
    | some i0 =>
      simp only [hc] at h
      obtain ⟨h1, h2, h3⟩ : i0 = info ∧ st = st' ∧ 0 = n := by simpa using h
      subst h1
      rw [← h2]
      unfold analyzeClass
      simp [if_neg hinit, hc]
    | none =>
      simp only [hc] at h
      by_cases hemp : (searchPathsOf fs st).1.isEmpty
      · simp [hemp] at h
      · simp only [if_neg hemp] at h
        cases hsc : scanPaths fs name (searchPathsOf fs st).1 with
        | mk o ops =>
          rw [hsc] at h
          cases o with
          | none => simp at h
          | some i1 =>
            obtain ⟨h1, h2, h3⟩ :
                i1 = info
                ∧ (⟨st.unrealPath, st.customPath, (name, i1) :: st.classCache,
                    st.apiCache, st.initialized⟩ : AnalyzerState) = st'
                ∧ (searchPathsOf fs st).2 + ops = n := by simpa using h
            subst h1
            rw [← h2]
            unfold analyzeClass
            simp [cacheLookup, hinit]

/-- Witness for C5: in the concrete scenario the first call resolves
`AFoo` with 3 file-system operations and the second call returns the
identical record with 0. -/
theorem c5_cache_idempotent_witness :
    analyzeClass stC5' fsC5 "AFoo" = .ok (infoC5, stC5', 0) :=
  c5_cache_idempotent stC5 fsC5 "AFoo" infoC5 stC5' 3 (by rfl)

/-- Characterisation of `ClassNotFound`: initialized, a cache miss, a
non-empty root list, and a failed scan. -/
theorem unres_iff (fs : FS) (q : String) (st : AnalyzerState) :
    Unres fs q st ↔
      st.initialized = true
      ∧ cacheLookup st.classCache q = none
      ∧ (searchPathsOf fs st).1.isEmpty = false
      ∧ (scanPaths fs q (searchPathsOf fs st).1).1 = none := by
  unfold Unres analyzeClass
  by_cases hinit : st.initialized = false
  · simp [hinit]
  · have hinit' : st.initialized = true := by
      revert hinit; cases st.initialized <;> simp
    simp only [if_neg hinit, hinit', true_and]
    cases hc : cacheLookup st.classCache q with
    | some i0 => simp
    | none =>
      simp only [true_and]
      by_cases hemp : (searchPathsOf fs st).1.isEmpty = true
      · simp [hemp]
      · simp only [if_neg hemp]
        cases hsc : scanPaths fs q (searchPathsOf fs st).1 with
        | mk o ops =>
          cases o with
          | none => simp [Bool.not_eq_true] at hemp; simp [hemp]
          | some i1 => simp

/-- The configured roots and the initialized flag are invariant under
a successful resolution; the cache either stays or gains exactly the
resolved entry (in which case the entry came from a successful scan on
a previous cache miss). -/
theorem analyzeClass_ok_state (st : AnalyzerState) (fs : FS) (n : String)
    (i : ClassInfo) (st' : AnalyzerState) (k : Nat)
    (h : analyzeClass st fs n = .ok (i, st', k)) :
    st'.unrealPath = st.unrealPath ∧ st'.customPath = st.customPath
    ∧ st'.initialized = st.initialized
    ∧ (st'.classCache = st.classCache
       ∨ (st'.classCache = (n, i) :: st.classCache
          ∧ cacheLookup st.classCache n = none
          ∧ (scanPaths fs n (searchPathsOf fs st).1).1 = some i)) := by
  unfold analyzeClass at h
  by_cases hinit : st.initialized = false
  · simp [hinit] at h
  · simp only [if_neg hinit] at h
    cases hc : cacheLookup st.classCache n with
    | some i0 =>
      simp only [hc] at h
      obtain ⟨h1, h2, h3⟩ : i0 = i ∧ st = st' ∧ 0 = k := by simpa using h
      rw [← h2]
      exact ⟨rfl, rfl, rfl, Or.inl rfl⟩
    | none =>
      simp only [hc] at h
      by_cases hemp : (searchPathsOf fs st).1.isEmpty
      · simp [hemp] at h
      · simp only [if_neg hemp] at h
        cases hsc : scanPaths fs n (searchPathsOf fs st).1 with
        | mk o ops =>
          rw [hsc] at h
          cases o with
          | none => simp at h
          | some i1 =>
            obtain ⟨h1, h2, h3⟩ :
                i1 = i
                ∧ (⟨st.unrealPath, st.customPath, (n, i1) :: st.classCache,
                    st.apiCache, st.initialized⟩ : AnalyzerState) = st'
                ∧ (searchPathsOf fs st).2 + ops = k := by simpa using h
            subst h1
            rw [← h2]
            exact ⟨rfl, rfl, rfl, Or.inr ⟨rfl, rfl, rfl⟩⟩

/-- `searchPathsOf` depends only on the two configured roots. -/
theorem searchPathsOf_congr (fs : FS) {st st' : AnalyzerState}
    (hu : st'.unrealPath = st.unrealPath) (hc : st'.customPath = st.customPath) :
    searchPathsOf fs st' = searchPathsOf fs st := by
  unfold searchPathsOf
  rw [hu, hc]

/-- A successful resolution of any name preserves unresolvability of
every (other) name: the roots are untouched and the cache gains only
names whose scans succeed. -/
theorem analyzeClass_pres {st : AnalyzerState} {fs : FS} {n : String}
    {i : ClassInfo} {st' : AnalyzerState} {k : Nat} {q : String}
    (h : analyzeClass st fs n = .ok (i, st', k)) (hq : Unres fs q st) :
    Unres fs q st' := by
  obtain ⟨hu, hc, hi, hcache⟩ := analyzeClass_ok_state st fs n i st' k h
  rw [unres_iff] at hq ⊢
  obtain ⟨q1, q2, q3, q4⟩ := hq
  have hsp : searchPathsOf fs st' = searchPathsOf fs st := searchPathsOf_congr fs hu hc
  refine ⟨by rw [hi, q1], ?_, by rw [hsp]; exact q3, by rw [hsp]; exact q4⟩
  cases hcache with
  | inl e => rw [e]; exact q2
  | inr e =>
    obtain ⟨e1, e2, e3⟩ := e
    have hnq : ¬ n = q := by
      intro hEq
      subst hEq
      rw [e3] at q4
      exact absurd q4 (by simp)
    rw [e1]
    show cacheLookup ((n, i) :: st.classCache) q = none
    unfold cacheLookup
    rw [if_neg hnq]
    exact q2

/-- A hierarchy construction that fails did so at its own top-level
resolution, before any state mutation. -/
theorem findClassHierarchy_err_state (fs : FS) (f : Nat) (st : AnalyzerState)
    (name : String) (incl : Bool) (e : AnalyzerError) (st' : AnalyzerState)
    (h : findClassHierarchy fs f st name incl = .err e st') : st' = st := by
  unfold findClassHierarchy at h
  split at h
  · cases h
    rfl
  · split at h
    · cases h
    · split at h
      · cases h
      · cases h

/-- The superclass loop preserves unresolvability, given that its step
does so on success and leaves the state unchanged on a caught error. -/
theorem goSupers_pres {fs : FS} {q : String} (step : AnalyzerState → String → HRes)
    (hok : ∀ st s h st', step st s = .ok h st' → Unres fs q st → Unres fs q st')
    (herr : ∀ st s e st', step st s = .err e st' → st' = st) :
    ∀ (lst : List String) (st : AnalyzerState) (hs : List ClassHierarchy)
      (st'' : AnalyzerState),
      goSupers step st lst = some (hs, st'') → Unres fs q st → Unres fs q st'' := by
  intro lst
  induction lst with
  | nil =>
    intro st hs st'' hgo hq
    obtain ⟨h1, h2⟩ : [] = hs ∧ st = st'' := by simpa [goSupers] using hgo
    rw [← h2]
    exact hq
  | cons s rest ih =>
    intro st hs st'' hgo hq
    unfold goSupers at hgo
    split at hgo
    case h_1 h st' hstep =>
      cases g : goSupers step st' rest with
      | none => simp [g] at hgo
      | some p =>
        simp only [g, Option.map_some', Option.some.injEq, Prod.mk.injEq] at hgo
        obtain ⟨h1, h2⟩ := hgo
        subst h2
        exact ih st' p.1 p.2 (by rw [g]) (hok st s h st' hstep hq)
    case h_2 e st' hstep =>
      cases g : goSupers step st' rest with
      | none => simp [g] at hgo
      | some p =>
        simp only [g, Option.map_some', Option.some.injEq, Prod.mk.injEq] at hgo
        obtain ⟨h1, h2⟩ := hgo
        subst h2
        have hst : st' = st := herr st s e st' hstep
        exact ih st' p.1 p.2 (by rw [g]) (hst ▸ hq)
    case h_3 hstep => simp at hgo

/-- Successful hierarchy construction preserves unresolvability. -/
theorem findClassHierarchy_pres (fs : FS) (incl : Bool) (q : String) :
    ∀ (f : Nat) (st : AnalyzerState) (n : String) (h : ClassHierarchy)
      (st' : AnalyzerState),
      findClassHierarchy fs f st n incl = .ok h st' → Unres fs q st → Unres fs q st' := by
  intro f
  induction f with
  | zero =>
    intro st n h st' hrun
    unfold findClassHierarchy at hrun
    split at hrun
    · cases hrun
    · split at hrun
      · cases hrun
      · next f' hf => exact absurd hf (by omega)
  | succ f ih =>
    intro st n h st' hrun hq
    unfold findClassHierarchy at hrun
    split at hrun
    case h_1 e ha => cases hrun
    case h_2 info st1 k ha =>
      have hq1 : Unres fs q st1 := analyzeClass_pres ha hq
      split at hrun
      case h_1 hf => cases hrun
      case h_2 f' hf =>
        have hf2 : f = f' := by omega
        subst hf2
        split at hrun
        case h_1 subs st2 g =>
          cases hrun
          exact goSupers_pres _
            (fun st0 s0 h0 st0' hstep hq0 => ih st0 s0 h0 st0' hstep hq0)
            (fun st0 s0 e0 st0' hstep =>
              findClassHierarchy_err_state fs f st0 s0 incl e0 st0' hstep)
            info.superclasses st1 subs st' g hq1
        case h_2 g => cases hrun

/-- If an unresolvable name occurs in the superclass list, the loop
emits its leaf node. -/
theorem goSupers_mem {fs : FS} {q : String} (step : AnalyzerState → String → HRes)
    (hok : ∀ st s h st', step st s = .ok h st' → Unres fs q st → Unres fs q st')
    (herr : ∀ st s e st', step st s = .err e st' → st' = st)
    (hstepq : ∀ st, Unres fs q st → step st q = .err .classNotFound st) :
    ∀ (lst : List String) (st : AnalyzerState) (hs : List ClassHierarchy)
      (st'' : AnalyzerState),
      goSupers step st lst = some (hs, st'') → Unres fs q st → q ∈ lst →
      (⟨q, [], []⟩ : ClassHierarchy) ∈ hs := by
  intro lst
  induction lst with
  | nil =>
    intro st hs st'' _ _ hmem
    cases hmem
  | cons s rest ih =>
    intro st hs st'' hgo hq hmem
    unfold goSupers at hgo
    split at hgo
    case h_1 h st' hstep =>
      have hsq : ¬ s = q := by
        intro hEq
        subst hEq
        rw [hstepq st hq] at hstep
        cases hstep
      have hmem' : q ∈ rest := by
        cases hmem with
        | head => exact absurd rfl hsq
        | tail _ hm => exact hm
      cases g : goSupers step st' rest with
      | none => simp [g] at hgo
      | some p =>
        simp only [g, Option.map_some', Option.some.injEq, Prod.mk.injEq] at hgo
        obtain ⟨h1, h2⟩ := hgo
        rw [← h1]
        exact List.mem_cons_of_mem _
          (ih st' p.1 p.2 (by rw [g]) (hok st s h st' hstep hq) hmem')
    case h_2 e st' hstep =>
      cases g : goSupers step st' rest with
      | none => simp [g] at hgo
      | some p =>
        simp only [g, Option.map_some', Option.some.injEq, Prod.mk.injEq] at hgo
        obtain ⟨h1, h2⟩ := hgo
        rw [← h1]
        by_cases hsq : s = q
        · subst hsq
          exact List.mem_cons_self _ _
        · have hmem' : q ∈ rest := by
            cases hmem with
            | head => exact absurd rfl hsq
            | tail _ hm => exact hm
          have hst : st' = st := herr st s e st' hstep
          exact List.mem_cons_of_mem _ (ih st' p.1 p.2 (by rw [g]) (hst ▸ hq) hmem')
    case h_3 hstep => simp at hgo

/-- C6: when building a hierarchy for a class that itself resolves,
an unresolvable superclass (`ClassNotFound`) never fails the
construction — its name still appears as a leaf node with empty
superclass list and empty interface list. -/
theorem c6_hierarchy_leaf_fallback (fs : FS) (st : AnalyzerState) (fuel : Nat)
    (name : String) (incl : Bool) (h : ClassHierarchy) (stF : AnalyzerState)
    (info : ClassInfo) (st1 : AnalyzerState) (k : Nat) (s : String)
    (hrun : findClassHierarchy fs fuel st name incl = .ok h stF)
    (hres : analyzeClass st fs name = .ok (info, st1, k))
    (hs : s ∈ info.superclasses)
    (hfail : analyzeClass st1 fs s = .error .classNotFound) :
    (⟨s, [], []⟩ : ClassHierarchy) ∈ h.superclasses := by
  unfold findClassHierarchy at hrun
  split at hrun
  case h_1 e ha => rw [ha] at hres; cases hres
  case h_2 info' st1' k' ha =>
    rw [ha] at hres
    obtain ⟨e1, e2, e3⟩ :
        info' = info ∧ st1' = st1 ∧ k' = k := by simpa using hres
    rw [e1, e2] at hrun
    split at hrun
    case h_1 => cases hrun
    case h_2 f =>
      split at hrun
      case h_2 g => cases hrun
      case h_1 subs st2 g =>
        cases hrun
        show (⟨s, [], []⟩ : ClassHierarchy) ∈ subs
        exact goSupers_mem _
          (fun st0 s0 h0 st0' hstep hq0 =>
            findClassHierarchy_pres fs incl s f st0 s0 h0 st0' hstep hq0)
          (fun st0 s0 e0 st0' hstep =>
            findClassHierarchy_err_state fs f st0 s0 incl e0 st0' hstep)
          (fun st0 hq0 => by
            show findClassHierarchy fs f st0 s incl = HRes.err .classNotFound st0
            unfold findClassHierarchy
            rw [hq0])
          info.superclasses st1 subs stF g hfail hs

/-- C3 counterexample: with both a custom and an engine root
configured, a whole-word occurrence of the identifier that exists only
under the engine root is NOT reported — `findReferences` returns the
empty list even though the engine-root line matches the whole-word
test.  This refutes the claim that reference search unions all
configured roots. -/
theorem c3_counterexample_engine_root_ignored :
    findReferences stC3 fsC3 "AFoo" none = .ok []
    ∧ testWordMatch (chars "AFoo") (chars "AFoo x;") = true
    ∧ fsC3.globHCpp "E" = [ "E/a.h"] :=
  ⟨rfl, rfl, rfl⟩

/-- C3 (amended): `findReferences` scans only the first configured
root in priority order — the custom root when one is set (the engine
root is then ignored entirely), the engine root otherwise. -/
theorem c3_custom_root_shadows_engine (st : AnalyzerState) (fs : FS)
    (identifier : String) (t : Option SymbolKind) (c : String)
    (hc : st.customPath = some c) :
    findReferences st fs identifier t
      = findReferences ⟨none, st.customPath, st.classCache, st.apiCache, st.initialized⟩
          fs identifier t := by
  simp [findReferences, activeRoot, hc]

/-- Witness for the amended C3: in the concrete two-root scenario the
engine root may be dropped without changing the result. -/
theorem c3_custom_root_shadows_engine_witness :
    findReferences stC3 fsC3 "AFoo" none
      = findReferences ⟨none, stC3.customPath, stC3.classCache, stC3.apiCache, stC3.initialized⟩
          fsC3 "AFoo" none :=
  c3_custom_root_shadows_engine stC3 fsC3 "AFoo" none "C" rfl

/-! ## Claim C9: the symbol-kind hint never influences the result -/
/-- C9: for every analyzer state, file system and identifier,
`findReferences` returns the same result whatever symbol-kind hint (or
none at all) is passed. -/
theorem c9_type_hint_never_influences (st : AnalyzerState) (fs : FS)
    (identifier : String) (t1 t2 : Option SymbolKind) :
    findReferences st fs identifier t1 = findReferences st fs identifier t2 := rfl

/-! ## Claim C7: both searches cap their results at 100 -/
/-- C7: reference search and free-text search return at most 100
entries, and exactly 100 whenever the raw (uncapped) match list has at
least 100 entries. -/
theorem c7_result_capping :
    (∀ (st : AnalyzerState) (fs : FS) (identifier : String) (t : Option SymbolKind)
       (res : List CodeReference),
       findReferences st fs identifier t = .ok res →
       res.length ≤ 100
       ∧ ∀ root, activeRoot st = some root →
           100 ≤ (refsOverFiles fs (chars identifier) (fs.globHCpp root)).length →
           res.length = 100)
    ∧ (∀ (st : AnalyzerState) (fs : FS) (matcher : List Char → Option Nat)
         (pat : String) (inc : Bool) (res : List CodeReference),
         searchCode st fs matcher pat inc = .ok res →
         res.length ≤ 100
         ∧ (100 ≤ (searchCodeRaw st fs matcher pat inc).length → res.length = 100)) := by
  constructor
  · intro st fs identifier t res h
    unfold findReferences at h
    split at h
    · cases h
    · split at h
      · cases h
      · next root hroot =>
        cases h
        constructor
        · rw [List.length_take]
          exact Nat.min_le_left _ _
        · intro root' hroot' hlen
          rw [hroot] at hroot'
          obtain rfl : root = root' := by
            injection hroot'
          rw [List.length_take]
          exact Nat.min_eq_left hlen
  · intro st fs matcher pat inc res h
    unfold searchCode at h
    split at h
    · cases h
    · split at h
      · cases h
      · cases h
        constructor
        · rw [List.length_take]
          exact Nat.min_le_left _ _
        · intro hlen
          rw [List.length_take]
          exact Nat.min_eq_left hlen

set_option maxRecDepth 20000 in
/-- Witness for C7: with 250 raw matches, both searches return exactly
100 entries. -/
theorem c7_result_capping_witness :
    ((refsOverFiles fsC7 (chars "AFoo") (fsC7.globHCpp "C")).take 100).length = 100
    ∧ ((searchCodeRaw stC7 fsC7 matcherC7 "*.{h,cpp}" true).take 100).length = 100 :=
  ⟨(c7_result_capping.1 stC7 fsC7 "AFoo" none
      ((refsOverFiles fsC7 (chars "AFoo") (fsC7.globHCpp "C")).take 100) rfl).2
      "C" rfl (by decide),
   (c7_result_capping.2 stC7 fsC7 matcherC7 "*.{h,cpp}" true
      ((searchCodeRaw stC7 fsC7 matcherC7 "*.{h,cpp}" true).take 100) rfl).2
      (by decide)⟩

/-! ## Claim C8: the comment-skip heuristic of free-text search -/
/-- Every match emitted by the per-file search loop points at an
actually matching, non-skipped line of the file. -/
theorem collectSearch_mem (matcher : List Char → Option Nat) (inc : Bool)
    (path : String) (allLines : List (List Char)) :
    ∀ (i : Nat) (ls : List (List Char)) (m : CodeReference),
      m ∈ collectSearchFrom matcher inc path allLines i ls →
      ∃ j l, ls.get? j = some l ∧ m.line = i + j + 1 ∧ (matcher l).isSome = true
        ∧ (inc = true ∨ isCommentStart l = false) ∧ m.file = path := by
  intro i ls
  induction ls generalizing i with
  | nil => intro m hm; cases hm
  | cons l rest ih =>
    intro m hm
    unfold collectSearchFrom at hm
    rw [List.mem_append] at hm
    cases hm with
    | inl hm =>
      by_cases hskip : (decide (inc = false) && isCommentStart l) = true
      · rw [if_pos hskip] at hm
        cases hm
      · rw [if_neg hskip] at hm
        by_cases hmat : (matcher l).isSome = true
        · rw [if_pos hmat] at hm
          cases hm with
          | head =>
            refine ⟨0, l, rfl, rfl, hmat, ?_, rfl⟩
            have key : ∀ (b c : Bool),
                ¬ ((decide (b = false) && c) = true) → b = true ∨ c = false := by
              intro b c hbc
              cases b with
              | false =>
                cases c with
                | false => exact Or.inr rfl
                | true => exact absurd (by decide) hbc
              | true => exact Or.inl rfl
            exact key inc (isCommentStart l) hskip
          | tail _ hm' => cases hm'
        · rw [if_neg hmat] at hm
          cases hm
    | inr hm =>
      obtain ⟨j, l', h1, h2, h3, h4, h5⟩ := ih (i + 1) m hm
      exact ⟨j + 1, l', h1, by omega, h3, h4, h5⟩

/-- Every matching, non-skipped line produces a match with its 1-based
line number. -/
theorem collectSearch_line_reported (matcher : List Char → Option Nat) (inc : Bool)
    (path : String) (allLines : List (List Char)) :
    ∀ (i : Nat) (ls : List (List Char)) (j : Nat) (l : List Char),
      ls.get? j = some l → (inc = true ∨ isCommentStart l = false) →
      (matcher l).isSome = true →
      ∃ m ∈ collectSearchFrom matcher inc path allLines i ls, m.line = i + j + 1 := by
  intro i ls
  induction ls generalizing i with
  | nil => intro j l hj; cases j <;> cases hj
  | cons l0 rest ih =>
    intro j l hj hskip hmat
    unfold collectSearchFrom
    cases j with
    | zero =>
      have h0 : some l0 = some l := hj
      have hl : l0 = l := by injection h0
      subst hl
      have hskip' : ¬ ((decide (inc = false) && isCommentStart l0) = true) := by
        cases hskip with
        | inl h => rw [h]; simp
        | inr h => rw [h]; simp
      rw [if_neg hskip', if_pos hmat]
      refine ⟨⟨path, i + 1,
        (match matcher l0 with
         | some j => j + 1
         | none => 0), contextOf allLines i⟩,
        List.mem_append_left _ (List.mem_cons_self _ _), rfl⟩
    | succ j' =>
      have hj' : rest.get? j' = some l := hj
      obtain ⟨m, hm, hline⟩ := ih (i + 1) j' l hj' hskip hmat
      exact ⟨m, List.mem_append_right _ hm, by omega⟩

/-- Every match of the file loop comes from one file's collected
matches, and carries that file's path. -/
theorem searchOverFiles_mem (fs : FS) (matcher : List Char → Option Nat) (inc : Bool) :
    ∀ (files : List String) (m : CodeReference),
      m ∈ searchOverFiles fs matcher inc files →
      ∃ lines, fs.readFile m.file = some lines
        ∧ m ∈ collectSearchMatches matcher inc m.file lines := by
  intro files
  induction files with
  | nil => intro m hm; cases hm
  | cons f rest ih =>
    intro m hm
    unfold searchOverFiles at hm
    rw [List.mem_append] at hm
    cases hm with
    | inl hm =>
      cases hread : fs.readFile f with
      | none => rw [hread] at hm; cases hm
      | some lines =>
        rw [hread] at hm
        obtain ⟨j, l, h1, h2, h3, h4, h5⟩ :=
          collectSearch_mem matcher inc f lines 0 lines m hm
        rw [← h5] at hread hm
        exact ⟨lines, hread, hm⟩
    | inr hm => exact ih m hm

/-- C8: with the comment-inclusion flag false, no `CodeMatch` ever
points at a line whose trimmed text begins with `//` or `/*`; an
identical matching line that is not a comment opener is reported; and
with the flag true no line is skipped on this basis. -/
theorem c8_comment_skip :
    (∀ (st : AnalyzerState) (fs : FS) (matcher : List Char → Option Nat)
       (pat : String) (res : List CodeReference) (m : CodeReference)
       (lines : List (List Char)) (l : List Char),
       searchCode st fs matcher pat false = .ok res → m ∈ res →
       fs.readFile m.file = some lines → lines.get? (m.line - 1) = some l →
       isCommentStart l = false)
    ∧ (∀ (matcher : List Char → Option Nat) (path : String)
         (lines : List (List Char)) (j : Nat) (l : List Char),
         lines.get? j = some l → isCommentStart l = false →
         (matcher l).isSome = true →
         ∃ m ∈ collectSearchMatches matcher false path lines, m.line = j + 1)
    ∧ (∀ (matcher : List Char → Option Nat) (path : String)
         (lines : List (List Char)) (j : Nat) (l : List Char),
         lines.get? j = some l → (matcher l).isSome = true →
         ∃ m ∈ collectSearchMatches matcher true path lines, m.line = j + 1) := by
  refine ⟨?_, ?_, ?_⟩
  · intro st fs matcher pat res m lines l hrun hm hread hline
    unfold searchCode at hrun
    split at hrun
    · cases hrun
    · split at hrun
      · cases hrun
      · cases hrun
        have hm' : m ∈ searchCodeRaw st fs matcher pat false := List.take_subset _ _ hm
        obtain ⟨lines', hread', hmm⟩ := searchOverFiles_mem fs matcher false _ m hm'
        obtain ⟨j, l', h1, h2, h3, h4, h5⟩ :=
          collectSearch_mem matcher false m.file lines' 0 lines' m hmm
        have hl : lines' = lines := by
          rw [hread'] at hread
          injection hread
        subst hl
        have hj : m.line - 1 = j := by omega
        rw [hj, h1] at hline
        obtain rfl : l' = l := by injection hline
        cases h4 with
        | inl h => cases h
        | inr h => exact h
  · intro matcher path lines j l hj hc hmat
    obtain ⟨m, hm, hline⟩ :=
      collectSearch_line_reported matcher false path lines 0 lines j l hj (Or.inr hc) hmat
    exact ⟨m, hm, by omega⟩
  · intro matcher path lines j l hj hmat
    obtain ⟨m, hm, hline⟩ :=
      collectSearch_line_reported matcher true path lines 0 lines j l hj (Or.inl rfl) hmat
    exact ⟨m, hm, by omega⟩

/-- Witness for C8: in the concrete scenario the comment line is
skipped (the reported match is on a non-comment line), the identical
term on the next line is reported with `includeComments = false`, and
the comment line itself is reported with `includeComments = true`. -/
theorem c8_comment_skip_witness :
    isCommentStart (chars "AFoo here") = false
    ∧ (∃ m ∈ collectSearchMatches matcherC8 false "C/a.cpp" linesC8, m.line = 2)
    ∧ (∃ m ∈ collectSearchMatches matcherC8 true "C/a.cpp" linesC8, m.line = 1) :=
  ⟨c8_comment_skip.1 stC8 fsC8 matcherC8 "*.{h,cpp}" [refC8] refC8 linesC8
      (chars "AFoo here") rfl (by decide) rfl rfl,
   c8_comment_skip.2.1 matcherC8 "C/a.cpp" linesC8 1 (chars "AFoo here") rfl rfl rfl,
   c8_comment_skip.2.2 matcherC8 "C/a.cpp" linesC8 0 (chars "// AFoo here") rfl rfl⟩

/-- C10: subsystem analysis requires the engine root specifically —
for every subsystem name, `analyzeSubsystem` fails with the
engine-path error whenever no engine root is configured, even on an
otherwise initialized analyzer (e.g. one configured with only a custom
root). -/
theorem c10_subsystem_requires_engine_root (st : AnalyzerState) (fs : FS)
    (subsystem : String) (h : st.unrealPath = none) (hinit : st.initialized = true) :
    analyzeSubsystem st fs subsystem = .error .unrealPathNotConfigured := by
  unfold analyzeSubsystem
  rw [hinit, h]
  rfl

/-- Witness for C10: with only a custom root configured (analyzer
initialized), subsystem analysis fails. -/
theorem c10_subsystem_requires_engine_root_witness :
    analyzeSubsystem ⟨none, some "C", [], [], true⟩ fsC10 "Rendering"
      = .error .unrealPathNotConfigured :=
  c10_subsystem_requires_engine_root ⟨none, some "C", [], [], true⟩ fsC10 "Rendering" rfl rfl

/-- C4 (amended): the relevance score equals the sum over terms of the
weighted field contributions, and a single term contributes at most
22 points (10+5+5+2), not 19. -/
theorem c4_relevance_formula :
    (∀ (apiRef : ApiReference) (terms : List String),
       calculateApiRelevance apiRef terms = claimApiScore apiRef terms)
    ∧ (∀ (apiRef : ApiReference) (term : String), claimTermScore apiRef term ≤ 22) := by
  constructor
  · intro apiRef terms
    have key : ∀ (l : List String) (n : Nat),
        List.foldl
          (fun score term =>
            score
            + (if containsSub (chars term) (lcL (chars apiRef.className)) then 10 else 0)
            + (if containsSub (chars term) (lcL (chars apiRef.category)) then 5 else 0)
            + (if containsSub (chars term) (lcL (chars apiRef.module)) then 5 else 0)
            + (if containsSub (chars term)
                 (lcL (chars (joinStrSep " "
                   ([apiRef.className, apiRef.description, apiRef.category, apiRef.module]
                     ++ apiRef.relatedClasses)))) then 2 else 0))
          n l
        = n + (l.map (claimTermScore apiRef)).sum := by
      intro l
      induction l with
      | nil => intro n; simp
      | cons t ts ih =>
        intro n
        rw [List.foldl_cons, ih, List.map_cons, List.sum_cons]
        unfold claimTermScore
        omega
    show List.foldl
        (fun score term =>
          score
          + (if containsSub (chars term) (lcL (chars apiRef.className)) then 10 else 0)
          + (if containsSub (chars term) (lcL (chars apiRef.category)) then 5 else 0)
          + (if containsSub (chars term) (lcL (chars apiRef.module)) then 5 else 0)
          + (if containsSub (chars term)
               (lcL (chars (joinStrSep " "
                 ([apiRef.className, apiRef.description, apiRef.category, apiRef.module]
                   ++ apiRef.relatedClasses)))) then 2 else 0))
        0 terms
      = claimApiScore apiRef terms
    rw [key terms 0]
    unfold claimApiScore
    omega
  · intro apiRef term
    unfold claimTermScore
    split_ifs <;> omega

/-- C4 counterexample: for the synthesized entry of `AOBox` and the
single lowercase query term `o`, the relevance score is 22 — the term
matches the class name (10), the category `Actor` (5), the module
`Core` (5) and the concatenated text (2) — exceeding the claimed
19-point per-term maximum. -/
theorem c4_counterexample_term_score_22 :
    calculateApiRelevance (getOrCreateApiReference [] infoC4).1 [ "o"] = 22
    ∧ claimTermScore (getOrCreateApiReference [] infoC4).1 "o" = 22 := by
  constructor
  · decide
  · decide

/-- Witness scenario for C6: the custom root defines `AFoo : AActor`
but no file defines `AActor`. -/
theorem c6_hierarchy_leaf_fallback_witness :
    (⟨ "AActor", [], []⟩ : ClassHierarchy)
      ∈ (ClassHierarchy.mk "AFoo" [⟨ "AActor", [], []⟩] []).superclasses :=
  c6_hierarchy_leaf_fallback fsC5 stC5 2 "AFoo" true
    ⟨ "AFoo", [⟨ "AActor", [], []⟩], []⟩ stC5' infoC5 stC5' 3 "AActor"
    (by rfl) (by rfl) (by decide) (by rfl)
